import Mathlib

/- Shallow embedding of the raw Iobuf engine (src/raw.rs, 64-bit target).

   Machine integers are modelled as Nat with explicit reduction modulo 2^32
   wherever the source performs wrapping u32 arithmetic (the source predates
   checked arithmetic, so u32 additions and subtractions wrap).  Byte memory
   is a function from absolute addresses to byte values; a handle's buf field
   is the address of byte 0 of its data region.  Fallible paths return
   Option/explicit status values: the Result<(),()> pass/fail sentinel is
   RStat, and unwrap-on-None panics inside the typed serialization family are
   a separate panicked status. -/

namespace Iobuf

/-- Wrap modulus of the u32 cursor fields. -/
def U32 : Nat := 4294967296

/-- High bit of a u32; marks an owned buffer (OWNED_MASK in raw.rs). -/
def OWNED_MASK : Nat := 2147483648

/-- Largest supported buffer: 0x7FFF_FFFF - 3 * TARGET_WORD_SIZE with
TARGET_WORD_SIZE = 64 on a 64-bit target (raw.rs MAX_BUFFER_LEN). -/
def MAX_BUFFER_LEN : Nat := 0x7FFFFFFF - 3 * 64

/-- The 24-byte handle: buf pointer plus four u32 cursors, with the owned
bit packed into the top bit of lo_min_and_owned_bit (struct RawIobuf). -/
structure RawIobuf where
  buf : Nat
  lo_min_and_owned_bit : Nat
  lo : Nat
  hi : Nat
  hi_max : Nat
deriving Repr, DecidableEq

/-- Byte memory: absolute address to stored byte value. -/
def Mem : Type := Nat → Nat

/-- Pass/fail sentinel of checked cursor operations (Result<(),()>). -/
inductive RStat where
  | ok : RStat
  | err : RStat
deriving Repr, DecidableEq

/-- Outcome of an operation from the typed peek/poke family: success, the
range-check failure sentinel, or a panic (Option::unwrap on None inside the
unchecked body). -/
inductive PResult (α : Type) where
  | ok : α → PResult α
  | rangeErr : PResult α
  | panicked : PResult α
deriving Repr, DecidableEq

/-- Status-only variant of PResult, for operations whose payload is memory. -/
inductive PStat where
  | ok : PStat
  | rangeErr : PStat
  | panicked : PStat
deriving Repr, DecidableEq

/-- lo_min accessor: self.lo_min_and_owned_bit & !OWNED_MASK (raw.rs lo_min). -/
def lo_min (b : RawIobuf) : Nat := b.lo_min_and_owned_bit &&& 0x7FFFFFFF

/-- Owned flag: self.lo_min_and_owned_bit & OWNED_MASK != 0 (raw.rs is_owned). -/
def is_owned (b : RawIobuf) : Bool := b.lo_min_and_owned_bit &&& OWNED_MASK != 0

/-- Write lo_min keeping the owned bit: field := (field & OWNED_MASK) | v
(raw.rs set_lo_min; the debug-only range assertion is release-mode absent). -/
def set_lo_min (v : Nat) (b : RawIobuf) : RawIobuf :=
  { b with lo_min_and_owned_bit := (b.lo_min_and_owned_bit &&& OWNED_MASK) ||| v }

/-- Allocation-header address, present only when owned: buf - 3 machine words
(raw.rs header; 3 * 8 bytes on a 64-bit target). -/
def header (b : RawIobuf) : Option Nat :=
  if is_owned b then some (b.buf - 24) else none

/-- Window length: hi - lo as wrapping u32 subtraction (raw.rs len). -/
def len (b : RawIobuf) : Nat := (b.hi + U32 - b.lo) % U32

/-- Limits length: hi_max - lo_min as wrapping u32 subtraction (raw.rs cap). -/
def cap (b : RawIobuf) : Nat := (b.hi_max + U32 - lo_min b) % U32

/-- hi == lo (raw.rs is_empty). -/
def is_empty (b : RawIobuf) : Bool := b.hi == b.lo

/-- Range check pos + len <= self.len(), computed in u64 so the u32-derived
arguments cannot overflow (raw.rs check_range). -/
def check_range (pos l : Nat) (b : RawIobuf) : Bool := decide (pos + l ≤ len b)

/-- Checked advance: check_range(0, len) then lo += len (raw.rs advance /
unsafe_advance, u32 addition wraps). -/
def advance (n : Nat) (b : RawIobuf) : RStat × RawIobuf :=
  if check_range 0 n b then (.ok, { b with lo := (b.lo + n) % U32 }) else (.err, b)

/-- Unchecked advance: lo += len (raw.rs unsafe_advance, release mode). -/
def unsafe_advance (n : Nat) (b : RawIobuf) : RawIobuf :=
  { b with lo := (b.lo + n) % U32 }

/-- Checked extend: computes new_hi = hi + len in u64 (exact in Nat), fails
when it exceeds hi_max, else hi += len (raw.rs extend / unsafe_extend). -/
def extend (n : Nat) (b : RawIobuf) : RStat × RawIobuf :=
  if b.hi + n > b.hi_max then (.err, b) else (.ok, { b with hi := (b.hi + n) % U32 })

/-- Checked resize: new_hi = lo + len in u64; fails when above hi_max, else
hi = new_hi as u32 (raw.rs resize). -/
def resize (n : Nat) (b : RawIobuf) : RStat × RawIobuf :=
  if b.lo + n > b.hi_max then (.err, b) else (.ok, { b with hi := (b.lo + n) % U32 })

/-- Unchecked resize: hi = lo + len as u32 (raw.rs unsafe_resize, release). -/
def unsafe_resize (n : Nat) (b : RawIobuf) : RawIobuf :=
  { b with hi := (b.lo + n) % U32 }

/-- lo = lo_min (raw.rs rewind). -/
def rewind (b : RawIobuf) : RawIobuf := { b with lo := lo_min b }

/-- lo = lo_min; hi = hi_max (raw.rs reset). -/
def reset (b : RawIobuf) : RawIobuf := { b with lo := lo_min b, hi := b.hi_max }

/-- hi = lo; lo = lo_min (raw.rs flip_lo). -/
def flip_lo (b : RawIobuf) : RawIobuf := { b with hi := b.lo, lo := lo_min b }

/-- lo = hi; hi = hi_max (raw.rs flip_hi). -/
def flip_hi (b : RawIobuf) : RawIobuf := { b with lo := b.hi, hi := b.hi_max }

/-- set_lo_min(lo); hi_max = hi (raw.rs narrow). -/
def narrow (b : RawIobuf) : RawIobuf :=
  let b1 := set_lo_min b.lo b
  { b1 with hi_max := b1.hi }

/-- Unchecked sub_window: the source's three-step sequence unsafe_resize(pos),
flip_hi(), unsafe_resize(len) (raw.rs unsafe_sub_window). -/
def unsafe_sub_window (pos n : Nat) (b : RawIobuf) : RawIobuf :=
  unsafe_resize n (flip_hi (unsafe_resize pos b))

/-- Checked sub_window: check_range(pos, len) then unsafe_sub_window
(raw.rs sub_window). -/
def sub_window (pos n : Nat) (b : RawIobuf) : RStat × RawIobuf :=
  if check_range pos n b then (.ok, unsafe_sub_window pos n b) else (.err, b)

/-- Unchecked sub: unsafe_sub_window then narrow (raw.rs unsafe_sub). -/
def unsafe_sub (pos n : Nat) (b : RawIobuf) : RawIobuf :=
  narrow (unsafe_sub_window pos n b)

/-- Checked sub: check_range(pos, len) then unsafe_sub (raw.rs sub). -/
def sub (pos n : Nat) (b : RawIobuf) : RStat × RawIobuf :=
  if check_range pos n b then (.ok, unsafe_sub pos n b) else (.err, b)

/-- Assign all four cursors at once, with the source's exact six checks, in
order (raw.rs set_limits_and_window). -/
def set_limits_and_window (limits window : Nat × Nat) (b : RawIobuf) :
    RStat × RawIobuf :=
  let (new_lo_min, new_hi_max) := limits
  let (new_lo, new_hi) := window
  if new_hi_max < new_lo_min then (.err, b)
  else if new_hi < new_lo then (.err, b)
  else if new_lo_min < lo_min b then (.err, b)
  else if new_hi_max > b.hi_max then (.err, b)
  else if new_lo < b.lo then (.err, b)
  else if new_hi > b.hi then (.err, b)
  else (.ok, { set_lo_min new_lo_min b with
                 lo := new_lo, hi := new_hi, hi_max := new_hi_max })

/-- lo - lo_min (raw.rs lo_space; wrapping u32 subtraction). -/
def lo_space (b : RawIobuf) : Nat := (b.lo + U32 - lo_min b) % U32

/-- hi_max - hi (raw.rs hi_space; wrapping u32 subtraction). -/
def hi_space (b : RawIobuf) : Nat := (b.hi_max + U32 - b.hi) % U32

/-- Memmove of n bytes from address src to address dst: the result reads all
source bytes from the pre-copy memory, which is ptr::copy_memory semantics. -/
def copyMem (m : Mem) (src dst n : Nat) : Mem :=
  fun a => if dst ≤ a ∧ a < dst + n then m (src + (a - dst)) else m a

/-- Cursor half of compact: lo = lo_min + len; hi = hi_max (raw.rs compact). -/
def compact_cursors (b : RawIobuf) : RawIobuf :=
  { b with lo := (lo_min b + len b) % U32, hi := b.hi_max }

/-- compact: shift the window's bytes down to lo_min, then set
lo = lo_min + len and hi = hi_max (raw.rs compact). -/
def compact (m : Mem) (b : RawIobuf) : Mem × RawIobuf :=
  (copyMem m (b.buf + b.lo) (b.buf + lo_min b) (len b), compact_cursors b)

/-- Contiguity test: self.buf + self.hi == other.buf + other.lo, and
self.hi + other.len() <= self.hi_max computed in u64 (raw.rs is_extended_by). -/
def is_extended_by (b other : RawIobuf) : Bool :=
  (b.buf + b.hi == other.buf + other.lo) && decide (b.hi + len other ≤ b.hi_max)

/-- Grow hi by other.len() when other physically extends self
(raw.rs extend_with / unsafe_extend). -/
def extend_with (other : RawIobuf) (b : RawIobuf) : RStat × RawIobuf :=
  if is_extended_by b other then (.ok, { b with hi := (b.hi + len other) % U32 })
  else (.err, b)

/-- Split into a = clone resized to pos and b = clone advanced by pos, after
check_range(pos, 0); the nonatomic refcount bump does not touch cursors
(raw.rs split_at_nonatomic / unsafe_split_at_nonatomic). -/
def split_at_nonatomic (pos : Nat) (b : RawIobuf) :
    Option (RawIobuf × RawIobuf) :=
  if check_range pos 0 b then some (unsafe_resize pos b, unsafe_advance pos b)
  else none

/-- Mutating split: self becomes the tail, the returned handle the head
(raw.rs split_start_at_nonatomic): (returned handle, new self). -/
def split_start_at_nonatomic (pos : Nat) (b : RawIobuf) :
    Option (RawIobuf × RawIobuf) :=
  if check_range pos 0 b then some (unsafe_resize pos b, unsafe_advance pos b)
  else none

/-- Constructor new(len): aborts (None) when len > MAX_BUFFER_LEN, else an
owned handle with window and limits [0, len) at a fresh base address
(raw.rs new_impl / new; allocation and header write happen off-handle). -/
def new (length : Nat) (base : Nat) : Option RawIobuf :=
  if length > MAX_BUFFER_LEN then none
  else some ⟨base, OWNED_MASK, 0, length, length⟩

/-- Constructor from_slice: borrowed, not owned; aborts (None) when the slice
is longer than MAX_BUFFER_LEN (raw.rs from_slice). -/
def from_slice (base length : Nat) : Option RawIobuf :=
  if length > MAX_BUFFER_LEN then none
  else some ⟨base, 0, 0, length, length⟩

/-- Constructor empty(): null pointer, all cursors zero, not owned
(raw.rs empty). -/
def empty : RawIobuf := ⟨0, 0, 0, 0, 0⟩

/-- Constructor from_slice_copy: new(len) then copy_nonoverlapping from the
source bytes into the fresh allocation (raw.rs from_slice_copy). -/
def from_slice_copy (m : Mem) (src length base : Nat) :
    Option (Mem × RawIobuf) :=
  (new length base).map (fun b => (copyMem m src base length, b))

/-- deep_clone: from_slice_copy of as_limit_slice (the cap() bytes starting
at buf + lo_min), then b.lo = self.lo and b.hi = self.hi copied verbatim
(raw.rs deep_clone). -/
def deep_clone (m : Mem) (b : RawIobuf) (base : Nat) :
    Option (Mem × RawIobuf) :=
  (from_slice_copy m (b.buf + lo_min b) (cap b) base).map
    (fun p => (p.1, { p.2 with lo := b.lo, hi := b.hi }))

/-- Nonatomic drop: when owned, refcount -= 1 (wrapping uint) and deallocate
on reaching zero; always clears lo_min_and_owned_bit afterwards
(raw.rs drop_nonatomic).  Returns (handle, refcount, deallocated?). -/
def drop_nonatomic (b : RawIobuf) (rc : Nat) : RawIobuf × Nat × Bool :=
  if is_owned b then
    let rc1 := (rc + (2^64 - 1)) % 2^64
    ({ b with lo_min_and_owned_bit := 0 }, rc1, rc1 == 0)
  else
    ({ b with lo_min_and_owned_bit := 0 }, rc, false)

/-- Atomic drop: fetch_sub(1) and deallocate when the previous value was 1;
always clears lo_min_and_owned_bit afterwards (raw.rs drop_atomic). -/
def drop_atomic (b : RawIobuf) (rc : Nat) : RawIobuf × Nat × Bool :=
  if is_owned b then
    ({ b with lo_min_and_owned_bit := 0 }, (rc + (2^64 - 1)) % 2^64, rc == 1)
  else
    ({ b with lo_min_and_owned_bit := 0 }, rc, false)

/-- A Prim instance: one of the eight fixed-width integer types, described by
its byte width and signedness.  Values of the type are the Ints in its range. -/
structure PrimTy where
  bytes : Nat
  signed : Bool
deriving Repr, DecidableEq

/-- Bit width of a Prim type. -/
def width (T : PrimTy) : Nat := 8 * T.bytes

/-- Largest value of a Prim type. -/
def maxVal (T : PrimTy) : Int :=
  if T.signed then 2^(width T - 1) - 1 else 2^(width T) - 1

def u8 : PrimTy := ⟨1, false⟩
def i8 : PrimTy := ⟨1, true⟩
def u16 : PrimTy := ⟨2, false⟩
def i16 : PrimTy := ⟨2, true⟩
def u32 : PrimTy := ⟨4, false⟩
def i32 : PrimTy := ⟨4, true⟩
def u64 : PrimTy := ⟨8, false⟩
def i64 : PrimTy := ⟨8, true⟩

/-- Two's-complement bit pattern of a value of type T, as a Nat below 2^width. -/
def toPat (T : PrimTy) (x : Int) : Nat := (x.emod (2^(width T))).toNat

/-- Value of type T represented by a bit pattern below 2^width. -/
def ofPat (T : PrimTy) (p : Nat) : Int :=
  if T.signed && decide (2^(width T - 1) ≤ p) then (p : Int) - 2^(width T)
  else (p : Int)

/-- Rust shl on T: shift the pattern left, truncated to the type's width. -/
def shl (T : PrimTy) (x : Int) (n : Nat) : Int :=
  ofPat T ((toPat T x <<< n) % 2^(width T))

/-- Rust shr on T: arithmetic shift for signed types, logical for unsigned;
on the value level both are floor division by 2^n. -/
def shr (x : Int) (n : Nat) : Int := Int.fdiv x (2^n)

/-- Rust bitor on T: pattern-wise or. -/
def bor (T : PrimTy) (x y : Int) : Int :=
  ofPat T (Nat.lor (toPat T x) (toPat T y))

/-- Rust bitand on T: pattern-wise and. -/
def band (T : PrimTy) (x y : Int) : Int :=
  ofPat T (Nat.land (toPat T x) (toPat T y))

/-- FromPrimitive::from_u8 for T: Some(n as T) when the byte value fits the
range of T, None otherwise (None makes the caller's .unwrap() panic). -/
def fromU8 (T : PrimTy) (n : Nat) : Option Int :=
  if decide ((n : Int) ≤ maxVal T) then some (n : Int) else none

/-- ToPrimitive::to_u8: Some when the value is a valid byte, None otherwise. -/
def toU8 (x : Int) : Option Nat :=
  if 0 ≤ x ∧ x ≤ 255 then some x.toNat else none

/-- Byte load: a u8 read can only observe a value below 256. -/
def byteAt (m : Mem) (addr : Nat) : Nat := m addr % 256

/-- Byte store. -/
def setByte (m : Mem) (addr v : Nat) : Mem :=
  fun a => if a = addr then v else m a

/-- get_at: read the byte at window offset pos and lift it into T through
FromPrimitive::from_u8 (raw.rs get_at; None is the .unwrap() panic). -/
def get_at (T : PrimTy) (m : Mem) (b : RawIobuf) (pos : Nat) : Option Int :=
  fromU8 T (byteAt m (b.buf + (b.lo + pos) % U32))

/-- set_at: lower the value through ToPrimitive::to_u8 and store it at window
offset pos (raw.rs set_at; None is the .unwrap() panic). -/
def set_at (m : Mem) (b : RawIobuf) (pos : Nat) (val : Int) : Option Mem :=
  (toU8 val).map (fun v => setByte m (b.buf + (b.lo + pos) % U32) v)

/-- Big-endian unchecked peek: x starts as from_u8(0); width 1 is
special-cased to a bare get_at; otherwise for each i,
x = get_at(pos + i) | (x << 8) (raw.rs unsafe_peek_be). -/
def unsafe_peek_be (T : PrimTy) (m : Mem) (b : RawIobuf) (pos : Nat) :
    Option Int :=
  match fromU8 T 0 with
  | none => none
  | some x0 =>
    if T.bytes == 1 then get_at T m b pos
    else
      (List.range T.bytes).foldlM
        (fun x i => (get_at T m b (pos + i)).map (fun g => bor T g (shl T x 8)))
        x0

/-- Little-endian unchecked peek: for each i,
x = (x >> 8) | (get_at(pos + i) << ((bytes - 1) * 8)); the shift on signed T
is arithmetic, exactly as Rust's Shr (raw.rs unsafe_peek_le). -/
def unsafe_peek_le (T : PrimTy) (m : Mem) (b : RawIobuf) (pos : Nat) :
    Option Int :=
  match fromU8 T 0 with
  | none => none
  | some x0 =>
    (List.range T.bytes).foldlM
      (fun x i =>
        (get_at T m b (pos + i)).map
          (fun g => bor T (shr x 8) (shl T g ((T.bytes - 1) * 8))))
      x0

/-- Big-endian unchecked poke: msk = from_u8(0xFF); for each i,
set_at(pos + i, (t >> ((bytes - i - 1) * 8)) & msk) (raw.rs unsafe_poke_be). -/
def unsafe_poke_be (T : PrimTy) (m : Mem) (b : RawIobuf) (pos : Nat)
    (t : Int) : Option Mem :=
  match fromU8 T 0xFF with
  | none => none
  | some msk =>
    (List.range T.bytes).foldlM
      (fun mm i => set_at mm b (pos + i) (band T (shr t ((T.bytes - i - 1) * 8)) msk))
      m

/-- Little-endian unchecked poke: msk = from_u8(0xFF); for each i,
set_at(pos + i, (t >> (i * 8)) & msk) (raw.rs unsafe_poke_le). -/
def unsafe_poke_le (T : PrimTy) (m : Mem) (b : RawIobuf) (pos : Nat)
    (t : Int) : Option Mem :=
  match fromU8 T 0xFF with
  | none => none
  | some msk =>
    (List.range T.bytes).foldlM
      (fun mm i => set_at mm b (pos + i) (band T (shr t (i * 8)) msk))
      m

/-- Checked typed peek, big-endian (raw.rs peek_be). -/
def peek_be (T : PrimTy) (m : Mem) (b : RawIobuf) (pos : Nat) : PResult Int :=
  if check_range pos T.bytes b then
    match unsafe_peek_be T m b pos with
    | some v => .ok v
    | none => .panicked
  else .rangeErr

/-- Checked typed peek, little-endian (raw.rs peek_le). -/
def peek_le (T : PrimTy) (m : Mem) (b : RawIobuf) (pos : Nat) : PResult Int :=
  if check_range pos T.bytes b then
    match unsafe_peek_le T m b pos with
    | some v => .ok v
    | none => .panicked
  else .rangeErr

/-- Checked typed poke, big-endian; takes &self, so only memory can change
(raw.rs poke_be). -/
def poke_be (T : PrimTy) (pos : Nat) (t : Int) (m : Mem) (b : RawIobuf) :
    PStat × Mem :=
  if check_range pos T.bytes b then
    match unsafe_poke_be T m b pos t with
    | some m1 => (.ok, m1)
    | none => (.panicked, m)
  else (.rangeErr, m)

/-- Checked typed poke, little-endian (raw.rs poke_le). -/
def poke_le (T : PrimTy) (pos : Nat) (t : Int) (m : Mem) (b : RawIobuf) :
    PStat × Mem :=
  if check_range pos T.bytes b then
    match unsafe_poke_le T m b pos t with
    | some m1 => (.ok, m1)
    | none => (.panicked, m)
  else (.rangeErr, m)

/-- Byte-list store for the raw poke/fill family. -/
def writeBytes : Mem → Nat → List Nat → Mem
  | m, _, [] => m
  | m, a, x :: xs => writeBytes (setByte m a (x % 256)) (a + 1) xs

/-- Raw checked poke: copy src into the window at pos (raw.rs poke). -/
def poke (pos : Nat) (src : List Nat) (m : Mem) (b : RawIobuf) : PStat × Mem :=
  if check_range pos src.length b then
    (.ok, writeBytes m (b.buf + (b.lo + pos) % U32) src)
  else (.rangeErr, m)

/-- Raw checked peek: copy len(dst) window bytes out at pos; memory and
handle are untouched, so the model returns the bytes read (raw.rs peek). -/
def peek (pos n : Nat) (m : Mem) (b : RawIobuf) : PResult (List Nat) :=
  if check_range pos n b then
    .ok ((List.range n).map (fun i => byteAt m (b.buf + (b.lo + pos) % U32 + i)))
  else .rangeErr

/-- fill: poke at offset 0 then lo += src.len() (raw.rs fill / unsafe_fill). -/
def fill (src : List Nat) (m : Mem) (b : RawIobuf) : PStat × Mem × RawIobuf :=
  if check_range 0 src.length b then
    (.ok, writeBytes m (b.buf + (b.lo + 0) % U32) src,
     { b with lo := (b.lo + src.length) % U32 })
  else (.rangeErr, m, b)

/-- consume: peek at offset 0 into the caller's buffer of length n, then
lo += n (raw.rs consume / unsafe_consume). -/
def consume (n : Nat) (m : Mem) (b : RawIobuf) :
    PResult (List Nat) × RawIobuf :=
  if check_range 0 n b then
    (.ok ((List.range n).map (fun i => byteAt m (b.buf + (b.lo + 0) % U32 + i))),
     { b with lo := (b.lo + n) % U32 })
  else (.rangeErr, b)

/-- fill_be: poke_be at offset 0 then lo += size (raw.rs fill_be /
unsafe_fill_be; on a panic inside poke the cursor is not advanced). -/
def fill_be (T : PrimTy) (t : Int) (m : Mem) (b : RawIobuf) :
    PStat × Mem × RawIobuf :=
  if check_range 0 T.bytes b then
    match unsafe_poke_be T m b 0 t with
    | some m1 => (.ok, m1, { b with lo := (b.lo + T.bytes) % U32 })
    | none => (.panicked, m, b)
  else (.rangeErr, m, b)

/-- fill_le (raw.rs fill_le / unsafe_fill_le). -/
def fill_le (T : PrimTy) (t : Int) (m : Mem) (b : RawIobuf) :
    PStat × Mem × RawIobuf :=
  if check_range 0 T.bytes b then
    match unsafe_poke_le T m b 0 t with
    | some m1 => (.ok, m1, { b with lo := (b.lo + T.bytes) % U32 })
    | none => (.panicked, m, b)
  else (.rangeErr, m, b)

/-- consume_be: peek_be at offset 0 then lo += size (raw.rs consume_be). -/
def consume_be (T : PrimTy) (m : Mem) (b : RawIobuf) :
    PResult Int × RawIobuf :=
  if check_range 0 T.bytes b then
    match unsafe_peek_be T m b 0 with
    | some v => (.ok v, { b with lo := (b.lo + T.bytes) % U32 })
    | none => (.panicked, b)
  else (.rangeErr, b)

/-- consume_le (raw.rs consume_le). -/
def consume_le (T : PrimTy) (m : Mem) (b : RawIobuf) :
    PResult Int × RawIobuf :=
  if check_range 0 T.bytes b then
    match unsafe_peek_le T m b 0 with
    | some v => (.ok v, { b with lo := (b.lo + T.bytes) % U32 })
    | none => (.panicked, b)
  else (.rangeErr, b)

/-- Invariant 1 of the spec (section 3): the cursor ordering
lo_min <= lo <= hi <= hi_max <= MAX_BUFFER_LEN. -/
def Inv (b : RawIobuf) : Prop :=
  lo_min b ≤ b.lo ∧ b.lo ≤ b.hi ∧ b.hi ≤ b.hi_max ∧ b.hi_max ≤ MAX_BUFFER_LEN

instance (b : RawIobuf) : Decidable (Inv b) := by
  unfold Inv
  infer_instance

/-- Handles reachable through the public API exactly as the code behaves:
constructed by new / from_slice / empty / from_slice_copy, transformed by the
checked cursor operations (whose failure sentinel leaves the handle as-is,
so both outcomes are covered by one constructor), by splits, and by
deep_clone.  Mem arguments are universally quantified because cursor
evolution never depends on byte contents. -/
inductive Reach : RawIobuf → Prop where
  | new : ∀ length base b, new length base = some b → Reach b
  | from_slice : ∀ base length b, from_slice base length = some b → Reach b
  | empty : Reach empty
  | from_slice_copy : ∀ m src length base p,
      from_slice_copy m src length base = some p → Reach p.2
  | advance : ∀ n b, Reach b → Reach (advance n b).2
  | extend : ∀ n b, Reach b → Reach (extend n b).2
  | resize : ∀ n b, Reach b → Reach (resize n b).2
  | rewind : ∀ b, Reach b → Reach (rewind b)
  | reset : ∀ b, Reach b → Reach (reset b)
  | flip_lo : ∀ b, Reach b → Reach (flip_lo b)
  | flip_hi : ∀ b, Reach b → Reach (flip_hi b)
  | narrow : ∀ b, Reach b → Reach (narrow b)
  | sub_window : ∀ pos n b, Reach b → Reach (sub_window pos n b).2
  | sub : ∀ pos n b, Reach b → Reach (sub pos n b).2
  | set_limits_and_window : ∀ limits window b, Reach b →
      Reach (set_limits_and_window limits window b).2
  | compact : ∀ b, Reach b → Reach (compact_cursors b)
  | extend_with : ∀ other b, Reach other → Reach b → Reach (extend_with other b).2
  | split_left : ∀ pos b p, Reach b → split_at_nonatomic pos b = some p → Reach p.1
  | split_right : ∀ pos b p, Reach b → split_at_nonatomic pos b = some p → Reach p.2
  | split_start_ret : ∀ pos b p, Reach b →
      split_start_at_nonatomic pos b = some p → Reach p.1
  | split_start_self : ∀ pos b p, Reach b →
      split_start_at_nonatomic pos b = some p → Reach p.2
  | fill : ∀ src m b, Reach b → Reach (fill src m b).2.2
  | consume : ∀ n m b, Reach b → Reach (consume n m b).2
  | fill_be : ∀ T t m b, Reach b → Reach (fill_be T t m b).2.2
  | fill_le : ∀ T t m b, Reach b → Reach (fill_le T t m b).2.2
  | consume_be : ∀ T m b, Reach b → Reach (consume_be T m b).2
  | consume_le : ∀ T m b, Reach b → Reach (consume_le T m b).2
  | deep_clone : ∀ m b base p, Reach b → deep_clone m b base = some p → Reach p.2
  | drop_nonatomic : ∀ b rc, Reach b → Reach (drop_nonatomic b rc).1
  | drop_atomic : ∀ b rc, Reach b → Reach (drop_atomic b rc).1

/-- Reachability restricted as the amended claim C1 requires: deep_clone is
only applied to handles with hi <= cap() (for instance any handle with
lo_min = 0), and set_limits_and_window only with requests whose cursors are
fully ordered (new_lo_min <= new_lo and new_hi <= new_hi_max).  All other
operations are unrestricted. -/
inductive ReachSafe : RawIobuf → Prop where
  | new : ∀ length base b, new length base = some b → ReachSafe b
  | from_slice : ∀ base length b, from_slice base length = some b → ReachSafe b
  | empty : ReachSafe empty
  | from_slice_copy : ∀ m src length base p,
      from_slice_copy m src length base = some p → ReachSafe p.2
  | advance : ∀ n b, ReachSafe b → ReachSafe (advance n b).2
  | extend : ∀ n b, ReachSafe b → ReachSafe (extend n b).2
  | resize : ∀ n b, ReachSafe b → ReachSafe (resize n b).2
  | rewind : ∀ b, ReachSafe b → ReachSafe (rewind b)
  | reset : ∀ b, ReachSafe b → ReachSafe (reset b)
  | flip_lo : ∀ b, ReachSafe b → ReachSafe (flip_lo b)
  | flip_hi : ∀ b, ReachSafe b → ReachSafe (flip_hi b)
  | narrow : ∀ b, ReachSafe b → ReachSafe (narrow b)
  | sub_window : ∀ pos n b, ReachSafe b → ReachSafe (sub_window pos n b).2
  | sub : ∀ pos n b, ReachSafe b → ReachSafe (sub pos n b).2
  | set_limits_and_window : ∀ a d lo hi b, ReachSafe b →
      a ≤ lo → hi ≤ d →
      ReachSafe (set_limits_and_window (a, d) (lo, hi) b).2
  | compact : ∀ b, ReachSafe b → ReachSafe (compact_cursors b)
  | extend_with : ∀ other b, ReachSafe other → ReachSafe b →
      ReachSafe (extend_with other b).2
  | split_left : ∀ pos b p, ReachSafe b →
      split_at_nonatomic pos b = some p → ReachSafe p.1
  | split_right : ∀ pos b p, ReachSafe b →
      split_at_nonatomic pos b = some p → ReachSafe p.2
  | split_start_ret : ∀ pos b p, ReachSafe b →
      split_start_at_nonatomic pos b = some p → ReachSafe p.1
  | split_start_self : ∀ pos b p, ReachSafe b →
      split_start_at_nonatomic pos b = some p → ReachSafe p.2
  | fill : ∀ src m b, ReachSafe b → ReachSafe (fill src m b).2.2
  | consume : ∀ n m b, ReachSafe b → ReachSafe (consume n m b).2
  | fill_be : ∀ T t m b, ReachSafe b → ReachSafe (fill_be T t m b).2.2
  | fill_le : ∀ T t m b, ReachSafe b → ReachSafe (fill_le T t m b).2.2
  | consume_be : ∀ T m b, ReachSafe b → ReachSafe (consume_be T m b).2
  | consume_le : ∀ T m b, ReachSafe b → ReachSafe (consume_le T m b).2
  | deep_clone : ∀ m b base p, ReachSafe b → b.hi ≤ cap b →
      deep_clone m b base = some p → ReachSafe p.2
  | drop_nonatomic : ∀ b rc, ReachSafe b → ReachSafe (drop_nonatomic b rc).1
  | drop_atomic : ∀ b rc, ReachSafe b → ReachSafe (drop_atomic b rc).1

/-- All-zero memory, used by the concrete counterexamples and witnesses. -/
def memZ : Mem := fun _ => 0

/-- Bit lemma: masking with !OWNED_MASK yields a value below 2^31. -/
theorem land_mask_lt (f : Nat) : f &&& 0x7FFFFFFF < 2^31 := by
  have h1 : (0x7FFFFFFF : Nat) = 2^31 - 1 := by norm_num
  rw [h1, Nat.and_pow_two_sub_one_eq_mod]
  exact Nat.mod_lt _ (by norm_num)

/-- Bit lemma: the lo_min written by set_lo_min is read back exactly when it
is below 2^31. -/
theorem land_lor_mask (f v : Nat) (hv : v < 2^31) :
    ((f &&& OWNED_MASK) ||| v) &&& 0x7FFFFFFF = v := by
  have h1 : (0x7FFFFFFF : Nat) = 2^31 - 1 := by norm_num
  have h2 : OWNED_MASK = 2^31 := by norm_num [OWNED_MASK]
  rw [h1, h2, Nat.and_distrib_right, Nat.land_assoc]
  have h3 : (2:Nat)^31 &&& (2^31 - 1) = 0 := by decide
  rw [h3, Nat.and_zero, Nat.zero_or, Nat.and_pow_two_sub_one_eq_mod,
      Nat.mod_eq_of_lt hv]

/-- Bit lemma: set_lo_min with a value below 2^31 preserves the owned bit. -/
theorem land_lor_owned (f v : Nat) (hv : v < 2^31) :
    ((f &&& OWNED_MASK) ||| v) &&& OWNED_MASK = f &&& OWNED_MASK := by
  have h2 : OWNED_MASK = 2^31 := by norm_num [OWNED_MASK]
  rw [h2, Nat.and_distrib_right, Nat.land_assoc]
  have h3 : (2:Nat)^31 &&& 2^31 = 2^31 := by decide
  have h4 : v &&& 2^31 = 0 := by
    rw [Nat.and_two_pow, Nat.testBit_eq_false_of_lt hv]; rfl
  rw [h3, h4, Nat.or_zero]

/-- lo_min is a 31-bit quantity. -/
theorem lo_min_lt (b : RawIobuf) : lo_min b < 2^31 := land_mask_lt _

/-- Reading back a set_lo_min below 2^31. -/
theorem lo_min_set_lo_min (b : RawIobuf) (v : Nat) (hv : v < 2^31) :
    lo_min (set_lo_min v b) = v := land_lor_mask _ v hv

/-- set_lo_min below 2^31 preserves the owned bit. -/
theorem is_owned_set_lo_min (b : RawIobuf) (v : Nat) (hv : v < 2^31) :
    is_owned (set_lo_min v b) = is_owned b := by
  unfold is_owned set_lo_min
  simp only
  rw [land_lor_owned _ v hv]

/-- Under the invariant, len is the plain difference hi - lo. -/
theorem len_eq (b : RawIobuf) (h : Inv b) : len b = b.hi - b.lo := by
  obtain ⟨_, h2, h3, h4⟩ := h
  unfold len U32
  unfold MAX_BUFFER_LEN at h4
  omega

/-- Under the invariant, cap is the plain difference hi_max - lo_min. -/
theorem cap_eq (b : RawIobuf) (h : Inv b) : cap b = b.hi_max - lo_min b := by
  obtain ⟨h1, h2, h3, h4⟩ := h
  unfold cap U32
  unfold MAX_BUFFER_LEN at h4
  have := lo_min_lt b
  omega

/-- advance preserves the invariant (both outcomes). -/
theorem inv_advance (n : Nat) (b : RawIobuf) (h : Inv b) : Inv (advance n b).2 := by
  unfold advance check_range
  split
  next hc =>
    rw [decide_eq_true_eq, len_eq b h] at hc
    unfold Inv at *
    simp only [lo_min] at *
    unfold U32 MAX_BUFFER_LEN at *
    omega
  next => exact h

/-- extend preserves the invariant (both outcomes). -/
theorem inv_extend (n : Nat) (b : RawIobuf) (h : Inv b) : Inv (extend n b).2 := by
  unfold extend
  split
  next => exact h
  next hc =>
    unfold Inv at *
    simp only [lo_min] at *
    unfold U32 MAX_BUFFER_LEN at *
    omega

/-- resize preserves the invariant (both outcomes). -/
theorem inv_resize (n : Nat) (b : RawIobuf) (h : Inv b) : Inv (resize n b).2 := by
  unfold resize
  split
  next => exact h
  next hc =>
    unfold Inv at *
    simp only [lo_min] at *
    unfold U32 MAX_BUFFER_LEN at *
    omega

/-- rewind preserves the invariant. -/
theorem inv_rewind (b : RawIobuf) (h : Inv b) : Inv (rewind b) := by
  unfold rewind
  unfold Inv at *
  simp only [lo_min] at *
  omega

/-- reset preserves the invariant. -/
theorem inv_reset (b : RawIobuf) (h : Inv b) : Inv (reset b) := by
  unfold reset
  unfold Inv at *
  simp only [lo_min] at *
  omega

/-- flip_lo preserves the invariant. -/
theorem inv_flip_lo (b : RawIobuf) (h : Inv b) : Inv (flip_lo b) := by
  unfold flip_lo
  unfold Inv at *
  simp only [lo_min] at *
  omega

/-- flip_hi preserves the invariant. -/
theorem inv_flip_hi (b : RawIobuf) (h : Inv b) : Inv (flip_hi b) := by
  unfold flip_hi
  unfold Inv at *
  simp only [lo_min] at *
  omega

/-- narrow preserves the invariant. -/
theorem inv_narrow (b : RawIobuf) (h : Inv b) : Inv (narrow b) := by
  have hlo : b.lo < 2^31 := by
    obtain ⟨h1, h2, h3, h4⟩ := h
    unfold MAX_BUFFER_LEN at h4
    omega
  unfold narrow
  unfold Inv at *
  simp only [set_lo_min, lo_min] at *
  rw [land_lor_mask _ _ hlo]
  unfold MAX_BUFFER_LEN at *
  omega

/-- unsafe_sub_window, under the invariant and a passing range check, lands
on the window [lo+pos, lo+pos+n) with the limits untouched. -/
theorem unsafe_sub_window_eq (pos n : Nat) (b : RawIobuf) (h : Inv b)
    (hc : pos + n ≤ len b) :
    unsafe_sub_window pos n b =
      ⟨b.buf, b.lo_min_and_owned_bit, b.lo + pos, b.lo + pos + n, b.hi_max⟩ := by
  rw [len_eq b h] at hc
  obtain ⟨h1, h2, h3, h4⟩ := h
  unfold MAX_BUFFER_LEN at h4
  unfold unsafe_sub_window unsafe_resize flip_hi
  simp only [RawIobuf.mk.injEq, U32]
  refine ⟨trivial, trivial, ?_, ?_, trivial⟩ <;> omega

/-- sub_window preserves the invariant (both outcomes). -/
theorem inv_sub_window (pos n : Nat) (b : RawIobuf) (h : Inv b) :
    Inv (sub_window pos n b).2 := by
  unfold sub_window check_range
  split
  next hc =>
    rw [decide_eq_true_eq] at hc
    rw [unsafe_sub_window_eq pos n b h hc]
    rw [len_eq b h] at hc
    unfold Inv at *
    simp only [lo_min] at *
    omega
  next => exact h

/-- sub preserves the invariant (both outcomes). -/
theorem inv_sub (pos n : Nat) (b : RawIobuf) (h : Inv b) : Inv (sub pos n b).2 := by
  unfold sub unsafe_sub check_range
  split
  next hc =>
    rw [decide_eq_true_eq] at hc
    rw [unsafe_sub_window_eq pos n b h hc]
    rw [len_eq b h] at hc
    have hin : Inv ⟨b.buf, b.lo_min_and_owned_bit, b.lo + pos, b.lo + pos + n, b.hi_max⟩ := by
      unfold Inv at *
      simp only [lo_min] at *
      omega
    exact inv_narrow _ hin
  next => exact h

/-- set_limits_and_window preserves the invariant when the requested cursors
are fully ordered (new_lo_min <= new_lo and new_hi <= new_hi_max); the code
itself checks the other four inequalities. -/
theorem inv_set_limits_and_window (a d lo hi : Nat) (b : RawIobuf) (h : Inv b)
    (hal : a ≤ lo) (hhd : hi ≤ d) :
    Inv (set_limits_and_window (a, d) (lo, hi) b).2 := by
  unfold set_limits_and_window
  simp only
  split
  next => exact h
  split
  next => exact h
  split
  next => exact h
  split
  next => exact h
  split
  next => exact h
  split
  next => exact h
  next hc1 hc2 hc3 hc4 hc5 hc6 =>
    have ha : a < 2^31 := by
      obtain ⟨h1, h2, h3, h4⟩ := h
      unfold MAX_BUFFER_LEN at h4
      omega
    unfold Inv at *
    simp only [set_lo_min, lo_min] at *
    rw [land_lor_mask _ _ ha]
    unfold MAX_BUFFER_LEN at *
    omega

/-- compact's cursor half preserves the invariant. -/
theorem inv_compact_cursors (b : RawIobuf) (h : Inv b) : Inv (compact_cursors b) := by
  have hl := len_eq b h
  have hm := lo_min_lt b
  unfold compact_cursors
  unfold Inv at *
  simp only [lo_min] at *
  unfold U32 MAX_BUFFER_LEN at *
  omega

/-- extend_with preserves the invariant (both outcomes). -/
theorem inv_extend_with (other b : RawIobuf) (h : Inv b) :
    Inv (extend_with other b).2 := by
  unfold extend_with is_extended_by
  split
  next hc =>
    rw [Bool.and_eq_true, decide_eq_true_eq] at hc
    unfold Inv at *
    simp only [lo_min] at *
    unfold U32 MAX_BUFFER_LEN at *
    omega
  next => exact h

/-- Both components of a successful split_at satisfy the invariant. -/
theorem inv_split (pos : Nat) (b : RawIobuf) (p : RawIobuf × RawIobuf)
    (h : Inv b) (hs : split_at_nonatomic pos b = some p) :
    Inv p.1 ∧ Inv p.2 := by
  unfold split_at_nonatomic check_range at hs
  split at hs
  next hc =>
    rw [decide_eq_true_eq, len_eq b h] at hc
    obtain rfl : (unsafe_resize pos b, unsafe_advance pos b) = p :=
      Option.some.injEq _ _ ▸ hs
    unfold unsafe_resize unsafe_advance
    unfold Inv at *
    simp only [lo_min] at *
    unfold U32 MAX_BUFFER_LEN at *
    omega
  next => exact absurd hs (by simp)

/-- fill preserves the invariant (all outcomes). -/
theorem inv_fill (src : List Nat) (m : Mem) (b : RawIobuf) (h : Inv b) :
    Inv (fill src m b).2.2 := by
  unfold fill check_range
  split
  next hc =>
    rw [decide_eq_true_eq, len_eq b h] at hc
    unfold Inv at *
    simp only [lo_min] at *
    unfold U32 MAX_BUFFER_LEN at *
    omega
  next => exact h

/-- consume preserves the invariant (all outcomes). -/
theorem inv_consume (n : Nat) (m : Mem) (b : RawIobuf) (h : Inv b) :
    Inv (consume n m b).2 := by
  unfold consume check_range
  split
  next hc =>
    rw [decide_eq_true_eq, len_eq b h] at hc
    unfold Inv at *
    simp only [lo_min] at *
    unfold U32 MAX_BUFFER_LEN at *
    omega
  next => exact h

/-- fill_be preserves the invariant (all outcomes, including the panic path,
which does not advance the cursor). -/
theorem inv_fill_be (T : PrimTy) (t : Int) (m : Mem) (b : RawIobuf) (h : Inv b) :
    Inv (fill_be T t m b).2.2 := by
  unfold fill_be check_range
  split
  next hc =>
    rw [decide_eq_true_eq, len_eq b h] at hc
    split
    next =>
      unfold Inv at *
      simp only [lo_min] at *
      unfold U32 MAX_BUFFER_LEN at *
      omega
    next => exact h
  next => exact h

/-- fill_le preserves the invariant (all outcomes). -/
theorem inv_fill_le (T : PrimTy) (t : Int) (m : Mem) (b : RawIobuf) (h : Inv b) :
    Inv (fill_le T t m b).2.2 := by
  unfold fill_le check_range
  split
  next hc =>
    rw [decide_eq_true_eq, len_eq b h] at hc
    split
    next =>
      unfold Inv at *
      simp only [lo_min] at *
      unfold U32 MAX_BUFFER_LEN at *
      omega
    next => exact h
  next => exact h

/-- consume_be preserves the invariant (all outcomes). -/
theorem inv_consume_be (T : PrimTy) (m : Mem) (b : RawIobuf) (h : Inv b) :
    Inv (consume_be T m b).2 := by
  unfold consume_be check_range
  split
  next hc =>
    rw [decide_eq_true_eq, len_eq b h] at hc
    split
    next =>
      unfold Inv at *
      simp only [lo_min] at *
      unfold U32 MAX_BUFFER_LEN at *
      omega
    next => exact h
  next => exact h

/-- consume_le preserves the invariant (all outcomes). -/
theorem inv_consume_le (T : PrimTy) (m : Mem) (b : RawIobuf) (h : Inv b) :
    Inv (consume_le T m b).2 := by
  unfold consume_le check_range
  split
  next hc =>
    rw [decide_eq_true_eq, len_eq b h] at hc
    split
    next =>
      unfold Inv at *
      simp only [lo_min] at *
      unfold U32 MAX_BUFFER_LEN at *
      omega
    next => exact h
  next => exact h

/-- Inversion of new: the constructed handle and the size bound. -/
theorem new_spec (length base : Nat) (b : RawIobuf)
    (h : new length base = some b) :
    b = ⟨base, OWNED_MASK, 0, length, length⟩ ∧ length ≤ MAX_BUFFER_LEN := by
  unfold new at h
  split at h
  next => exact absurd h (by simp)
  next hc => exact ⟨(Option.some.injEq _ _ ▸ h).symm, by omega⟩

/-- Inversion of from_slice. -/
theorem from_slice_spec (base length : Nat) (b : RawIobuf)
    (h : from_slice base length = some b) :
    b = ⟨base, 0, 0, length, length⟩ ∧ length ≤ MAX_BUFFER_LEN := by
  unfold from_slice at h
  split at h
  next => exact absurd h (by simp)
  next hc => exact ⟨(Option.some.injEq _ _ ▸ h).symm, by omega⟩

/-- Inversion of from_slice_copy: the handle half. -/
theorem from_slice_copy_spec (m : Mem) (src length base : Nat)
    (p : Mem × RawIobuf) (h : from_slice_copy m src length base = some p) :
    p.2 = ⟨base, OWNED_MASK, 0, length, length⟩ ∧ length ≤ MAX_BUFFER_LEN := by
  unfold from_slice_copy new at h
  split at h
  next => exact absurd h (by simp)
  next hc =>
    simp only [Option.map_some'] at h
    exact ⟨congrArg Prod.snd (Option.some.injEq _ _ ▸ h).symm, by omega⟩

/-- Inversion of deep_clone: the resulting handle copies lo and hi verbatim
and gets limits [0, cap). -/
theorem deep_clone_spec (m : Mem) (b : RawIobuf) (base : Nat)
    (p : Mem × RawIobuf) (h : deep_clone m b base = some p) :
    p.2 = ⟨base, OWNED_MASK, b.lo, b.hi, cap b⟩ ∧ cap b ≤ MAX_BUFFER_LEN := by
  unfold deep_clone from_slice_copy new at h
  split at h
  next => exact absurd h (by simp)
  next hc =>
    simp only [Option.map_some'] at h
    have := (Option.some.injEq _ _ ▸ h).symm
    subst this
    exact ⟨rfl, by omega⟩

/-- An owned fresh handle with window = limits = [0, length) satisfies the
invariant. -/
theorem inv_fresh (base length : Nat) (hl : length ≤ MAX_BUFFER_LEN) :
    Inv ⟨base, OWNED_MASK, 0, length, length⟩ := by
  unfold Inv lo_min
  dsimp only
  have h1 : OWNED_MASK &&& 0x7FFFFFFF = 0 := by decide
  omega

/-- A borrowed fresh handle satisfies the invariant. -/
theorem inv_fresh_borrowed (base length : Nat) (hl : length ≤ MAX_BUFFER_LEN) :
    Inv ⟨base, 0, 0, length, length⟩ := by
  unfold Inv lo_min
  dsimp only
  have h1 : (0 : Nat) &&& 0x7FFFFFFF = 0 := by decide
  omega

/-- Dropping (either discipline) preserves the invariant: the cleared field
makes lo_min zero. -/
theorem inv_drop_nonatomic (b : RawIobuf) (rc : Nat) (h : Inv b) :
    Inv (drop_nonatomic b rc).1 := by
  unfold drop_nonatomic
  obtain ⟨h1, h2, h3, h4⟩ := h
  have h0 : (0 : Nat) &&& 0x7FFFFFFF = 0 := by decide
  split <;> exact ⟨by unfold lo_min; dsimp only; omega, h2, h3, h4⟩

/-- Atomic drop preserves the invariant. -/
theorem inv_drop_atomic (b : RawIobuf) (rc : Nat) (h : Inv b) :
    Inv (drop_atomic b rc).1 := by
  unfold drop_atomic
  obtain ⟨h1, h2, h3, h4⟩ := h
  have h0 : (0 : Nat) &&& 0x7FFFFFFF = 0 := by decide
  split <;> exact ⟨by unfold lo_min; dsimp only; omega, h2, h3, h4⟩

/-- C1 (amended): every handle reachable through the public API satisfies
lo_min <= lo <= hi <= hi_max <= MAX_BUFFER_LEN, where deep_clone is applied
only to handles with hi <= cap() (for instance any handle whose limits start
at 0) and set_limits_and_window only to requests with new_lo_min <= new_lo
and new_hi <= new_hi_max; every checked mutation either preserves the
ordering or returns the failure sentinel leaving the handle unchanged (the
failure outcome is part of each Reach constructor). -/
theorem C1_reachable_inv (b : RawIobuf) (h : ReachSafe b) : Inv b := by
  induction h with
  | new length base b hb => obtain ⟨rfl, hl⟩ := new_spec _ _ _ hb; exact inv_fresh _ _ hl
  | from_slice base length b hb =>
    obtain ⟨rfl, hl⟩ := from_slice_spec _ _ _ hb
    exact inv_fresh_borrowed _ _ hl
  | empty => exact ⟨by decide, by decide, by decide, by decide⟩
  | from_slice_copy m src length base p hb =>
    obtain ⟨he, hl⟩ := from_slice_copy_spec _ _ _ _ _ hb
    rw [he]
    exact inv_fresh _ _ hl
  | advance n b hb ih => exact inv_advance n b ih
  | extend n b hb ih => exact inv_extend n b ih
  | resize n b hb ih => exact inv_resize n b ih
  | rewind b hb ih => exact inv_rewind b ih
  | reset b hb ih => exact inv_reset b ih
  | flip_lo b hb ih => exact inv_flip_lo b ih
  | flip_hi b hb ih => exact inv_flip_hi b ih
  | narrow b hb ih => exact inv_narrow b ih
  | sub_window pos n b hb ih => exact inv_sub_window pos n b ih
  | sub pos n b hb ih => exact inv_sub pos n b ih
  | set_limits_and_window a d lo hi b hb hal hhd ih =>
    exact inv_set_limits_and_window a d lo hi b ih hal hhd
  | compact b hb ih => exact inv_compact_cursors b ih
  | extend_with other b hbo hb iho ih => exact inv_extend_with other b ih
  | split_left pos b p hb hs ih => exact (inv_split pos b p ih hs).1
  | split_right pos b p hb hs ih => exact (inv_split pos b p ih hs).2
  | split_start_ret pos b p hb hs ih => exact (inv_split pos b p ih hs).1
  | split_start_self pos b p hb hs ih => exact (inv_split pos b p ih hs).2
  | fill src m b hb ih => exact inv_fill src m b ih
  | consume n m b hb ih => exact inv_consume n m b ih
  | fill_be T t m b hb ih => exact inv_fill_be T t m b ih
  | fill_le T t m b hb ih => exact inv_fill_le T t m b ih
  | consume_be T m b hb ih => exact inv_consume_be T m b ih
  | consume_le T m b hb ih => exact inv_consume_le T m b ih
  | deep_clone m b base p hb hcap hdc ih =>
    obtain ⟨he, hl⟩ := deep_clone_spec _ _ _ _ hdc
    rw [he]
    have h0 : OWNED_MASK &&& 0x7FFFFFFF = 0 := by decide
    rw [cap_eq b ih] at hcap hl ⊢
    obtain ⟨h1, h2, h3, h4⟩ := ih
    exact ⟨by unfold lo_min; dsimp only; omega, h2, hcap, hl⟩
  | drop_nonatomic b rc hb ih => exact inv_drop_nonatomic b rc ih
  | drop_atomic b rc hb ih => exact inv_drop_atomic b rc ih

/-- Concrete witness for claim C1: invariant of the handle obtained as
new(10), advance(5), narrow() under the amended reachability. -/
theorem C1_witness :
    ReachSafe (narrow (advance 5 (⟨0, OWNED_MASK, 0, 10, 10⟩ : RawIobuf)).2) ∧
    Inv (narrow (advance 5 (⟨0, OWNED_MASK, 0, 10, 10⟩ : RawIobuf)).2) := by
  have h0 : ReachSafe (⟨0, OWNED_MASK, 0, 10, 10⟩ : RawIobuf) :=
    ReachSafe.new 10 0 _ (by decide)
  have h1 : ReachSafe (narrow (advance 5 (⟨0, OWNED_MASK, 0, 10, 10⟩ : RawIobuf)).2) :=
    ReachSafe.narrow _ (ReachSafe.advance 5 _ h0)
  exact ⟨h1, C1_reachable_inv _ h1⟩

/-- Counterexample to claim C1 as stated: the chain new(10), advance(5),
narrow(), deep_clone() is reachable through the public API exactly as the
code behaves, yet the resulting handle has lo = 5, hi = 10, hi_max = 5,
violating hi <= hi_max. -/
theorem C1_counterexample :
    ¬ (∀ b : RawIobuf, Reach b → Inv b) := by
  intro hall
  have h0 : Reach (⟨0, OWNED_MASK, 0, 10, 10⟩ : RawIobuf) :=
    Reach.new 10 0 _ (by decide)
  have h1 : Reach (narrow (advance 5 (⟨0, OWNED_MASK, 0, 10, 10⟩ : RawIobuf)).2) :=
    Reach.narrow _ (Reach.advance 5 _ h0)
  have h2 : narrow (advance 5 (⟨0, OWNED_MASK, 0, 10, 10⟩ : RawIobuf)).2 =
      ⟨0, OWNED_MASK ||| 5, 5, 10, 10⟩ := by decide
  rw [h2] at h1
  have h3 : deep_clone memZ (⟨0, OWNED_MASK ||| 5, 5, 10, 10⟩ : RawIobuf) 100 =
      some (copyMem memZ 5 100 5, ⟨100, OWNED_MASK, 5, 10, 5⟩) := by
    unfold deep_clone from_slice_copy new
    have hc : cap (⟨0, OWNED_MASK ||| 5, 5, 10, 10⟩ : RawIobuf) = 5 := by decide
    rw [hc]
    have hm : lo_min (⟨0, OWNED_MASK ||| 5, 5, 10, 10⟩ : RawIobuf) = 5 := by decide
    rw [hm]
    norm_num [MAX_BUFFER_LEN]
  have h4 : Reach (⟨100, OWNED_MASK, 5, 10, 5⟩ : RawIobuf) := by
    have := Reach.deep_clone memZ _ 100 _ h1 h3
    exact this
  have h5 := hall _ h4
  have h6 : ¬ Inv (⟨100, OWNED_MASK, 5, 10, 5⟩ : RawIobuf) := by decide
  exact h6 h5

/-- C2: the claimed poke/peek round trip fails on the code.  For T = i16 and
x = 255, poke_le(0, 255) succeeds (bytes FF 00) but peek_le(0) returns -1:
the loop's x >> 8 is an arithmetic shift on signed types and smears the sign
bit of the intermediate value.  For T = i8 both pokes panic outright: the
mask FromPrimitive::from_u8(0xFF) is None for i8 and is unwrapped. -/
theorem C2_roundtrip_failure :
    (poke_le i16 0 255 memZ (⟨0, 0, 0, 4, 4⟩ : RawIobuf)).1 = PStat.ok ∧
    peek_le i16 (poke_le i16 0 255 memZ (⟨0, 0, 0, 4, 4⟩ : RawIobuf)).2
      (⟨0, 0, 0, 4, 4⟩ : RawIobuf) 0 = PResult.ok (-1) ∧
    (255 : Int) ≠ (-1 : Int) ∧
    (poke_be i8 0 0 memZ (⟨0, 0, 0, 4, 4⟩ : RawIobuf)).1 = PStat.panicked ∧
    (poke_le i8 0 0 memZ (⟨0, 0, 0, 4, 4⟩ : RawIobuf)).1 = PStat.panicked := by
  decide

/-- C3: the range-checked typed operations do panic for T = i8, on any input:
poke_be::<i8> unwraps FromPrimitive::from_u8(0xFF) which is None for i8, and
peek_be::<i8> unwraps from_u8(byte) which is None for any byte >= 0x80; the
claim's pass/fail-only contract is violated. -/
theorem C3_poke_i8_panics :
    (poke_be i8 0 0 memZ (⟨0, 0, 0, 4, 4⟩ : RawIobuf)).1 = PStat.panicked ∧
    (poke_le i8 0 (-1) memZ (⟨0, 0, 0, 4, 4⟩ : RawIobuf)).1 = PStat.panicked ∧
    (fill_be i8 0 memZ (⟨0, 0, 0, 4, 4⟩ : RawIobuf)).1 = PStat.panicked ∧
    peek_be i8 (fun _ => 128) (⟨0, 0, 0, 4, 4⟩ : RawIobuf) 0 = PResult.panicked ∧
    (consume_be i8 (fun _ => 128) (⟨0, 0, 0, 4, 4⟩ : RawIobuf)).1 =
      PResult.panicked := by
  decide

/-- C4: deep_clone copies lo and hi verbatim instead of their offsets
relative to lo_min.  On the invariant-satisfying handle
(lo_min = 5, lo = 5, hi = 10, hi_max = 10), reachable e.g. by narrow after
advance(5), the clone gets lo = 5, hi = 10 but limits [0, 5): the window
offset relative to lo_min becomes 5 instead of 0 and hi > hi_max. -/
theorem C4_deep_clone_bug :
    (deep_clone memZ (⟨0, 5, 5, 10, 10⟩ : RawIobuf) 100).map Prod.snd =
      some ⟨100, OWNED_MASK, 5, 10, 5⟩ ∧
    lo_min (⟨0, 5, 5, 10, 10⟩ : RawIobuf) = 5 ∧
    Inv (⟨0, 5, 5, 10, 10⟩ : RawIobuf) ∧
    (⟨0, 5, 5, 10, 10⟩ : RawIobuf).lo - lo_min (⟨0, 5, 5, 10, 10⟩ : RawIobuf) = 0 ∧
    lo_min (⟨100, OWNED_MASK, 5, 10, 5⟩ : RawIobuf) = 0 ∧
    (⟨100, OWNED_MASK, 5, 10, 5⟩ : RawIobuf).lo -
      lo_min (⟨100, OWNED_MASK, 5, 10, 5⟩ : RawIobuf) = 5 ∧
    ¬ Inv (⟨100, OWNED_MASK, 5, 10, 5⟩ : RawIobuf) := by
  decide

/-- C5 counterexample: on the fresh handle with limits and window [0, 10),
set_limits_and_window((8, 9), (0, 1)) succeeds although the requested
cursors are not ordered (new_lo_min = 8 > new_lo = 0), and the produced
handle violates the invariant; the claim as stated requires the failure
sentinel here. -/
theorem C5_counterexample :
    (set_limits_and_window (8, 9) (0, 1) (⟨0, 0, 0, 10, 10⟩ : RawIobuf)).1 =
      RStat.ok ∧
    (set_limits_and_window (8, 9) (0, 1) (⟨0, 0, 0, 10, 10⟩ : RawIobuf)).2 =
      ⟨0, 8, 0, 1, 9⟩ ∧
    ¬ ((8 : Nat) ≤ 0) ∧
    lo_min (⟨0, 8, 0, 1, 9⟩ : RawIobuf) = 8 ∧
    ¬ Inv (⟨0, 8, 0, 1, 9⟩ : RawIobuf) := by
  decide

/-- Case split for set_limits_and_window: it either fails with the handle
unchanged (some of the six source checks fails) or succeeds assigning all
four cursors. -/
theorem slw_cases (a d lo hi : Nat) (b : RawIobuf) :
    (¬ (a ≤ d ∧ lo ≤ hi ∧ lo_min b ≤ a ∧ d ≤ b.hi_max ∧ b.lo ≤ lo ∧ hi ≤ b.hi) ∧
      set_limits_and_window (a, d) (lo, hi) b = (.err, b)) ∨
    ((a ≤ d ∧ lo ≤ hi ∧ lo_min b ≤ a ∧ d ≤ b.hi_max ∧ b.lo ≤ lo ∧ hi ≤ b.hi) ∧
      set_limits_and_window (a, d) (lo, hi) b =
        (.ok, { set_lo_min a b with lo := lo, hi := hi, hi_max := d })) := by
  unfold set_limits_and_window
  simp only
  split
  next hc => exact Or.inl ⟨by omega, rfl⟩
  split
  next hc => exact Or.inl ⟨by omega, rfl⟩
  split
  next hc => exact Or.inl ⟨by omega, rfl⟩
  split
  next hc => exact Or.inl ⟨by omega, rfl⟩
  split
  next hc => exact Or.inl ⟨by omega, rfl⟩
  split
  next hc => exact Or.inl ⟨by omega, rfl⟩
  next h1 h2 h3 h4 h5 h6 => exact Or.inr ⟨by omega, rfl⟩

/-- C5 (amended): under the invariant, set_limits_and_window((a,d),(b,c))
succeeds and assigns lo_min = a, lo = b, hi = c, hi_max = d exactly when the
source's six checks hold: a <= d, b <= c, the new limits lie within the
current limits (lo_min <= a, d <= hi_max) and the new window lies within the
current window (lo <= b, c <= hi); it does not check a <= b or c <= d.  On
any violation of the six it returns the failure sentinel with the handle
unchanged. -/
theorem C5_slw_spec (b : RawIobuf) (a d lo hi : Nat) (hInv : Inv b) :
    ((set_limits_and_window (a, d) (lo, hi) b).1 = RStat.ok ↔
      (a ≤ d ∧ lo ≤ hi ∧ lo_min b ≤ a ∧ d ≤ b.hi_max ∧ b.lo ≤ lo ∧ hi ≤ b.hi)) ∧
    ((set_limits_and_window (a, d) (lo, hi) b).1 = RStat.ok →
      lo_min (set_limits_and_window (a, d) (lo, hi) b).2 = a ∧
      (set_limits_and_window (a, d) (lo, hi) b).2.lo = lo ∧
      (set_limits_and_window (a, d) (lo, hi) b).2.hi = hi ∧
      (set_limits_and_window (a, d) (lo, hi) b).2.hi_max = d) ∧
    ((set_limits_and_window (a, d) (lo, hi) b).1 = RStat.err →
      (set_limits_and_window (a, d) (lo, hi) b).2 = b) := by
  rcases slw_cases a d lo hi b with ⟨hn, he⟩ | ⟨hc, he⟩
  · rw [he]
    refine ⟨⟨fun hok => absurd hok (by simp), fun hcs => absurd hcs hn⟩, ?_, ?_⟩
    · intro hok
      exact absurd hok (by simp)
    · intro _
      rfl
  · rw [he]
    have ha : a < 2^31 := by
      obtain ⟨_, _, _, h4⟩ := hInv
      unfold MAX_BUFFER_LEN at h4
      omega
    refine ⟨⟨fun _ => hc, fun _ => rfl⟩, ?_, ?_⟩
    · intro _
      refine ⟨?_, rfl, rfl, rfl⟩
      exact lo_min_set_lo_min b a ha
    · intro hek
      exact absurd hek (by simp)

/-- Concrete application of the C5 theorem: a fully ordered request on a
fresh [0, 10) handle succeeds and assigns lo_min = 2. -/
theorem C5_witness :
    lo_min (set_limits_and_window (2, 8) (3, 7) (⟨0, 0, 0, 10, 10⟩ : RawIobuf)).2 = 2 :=
  ((C5_slw_spec (⟨0, 0, 0, 10, 10⟩ : RawIobuf) 2 8 3 7 (by decide)).2.1
    (by decide)).1

/-- C6: under the invariant, the checked sub_window(p, n) succeeds exactly
when p + n <= len(); on success the three-step implementation (unsafe_resize,
flip_hi, unsafe_resize) lands on the window [lo+p, lo+p+n) with the buf
pointer, lo_min_and_owned_bit and hi_max unchanged; on failure the handle is
unchanged. -/
theorem C6_sub_window_spec (b : RawIobuf) (pos n : Nat) (hInv : Inv b) :
    ((sub_window pos n b).1 = RStat.ok ↔ pos + n ≤ len b) ∧
    (pos + n ≤ len b →
      (sub_window pos n b).2 =
        ⟨b.buf, b.lo_min_and_owned_bit, b.lo + pos, b.lo + pos + n, b.hi_max⟩) ∧
    (¬ pos + n ≤ len b → (sub_window pos n b).2 = b) := by
  unfold sub_window check_range
  split
  next hc =>
    rw [decide_eq_true_eq] at hc
    refine ⟨⟨fun _ => hc, fun _ => rfl⟩, fun _ => ?_, fun hn => absurd hc hn⟩
    exact unsafe_sub_window_eq pos n b hInv hc
  next hc =>
    rw [decide_eq_true_eq] at hc
    exact ⟨⟨fun hok => absurd hok (by simp), fun hcs => absurd hcs hc⟩,
           fun hcs => absurd hcs hc, fun _ => rfl⟩

/-- Concrete application of the C6 theorem: sub_window(2, 3) on a fresh
[0, 10) handle narrows the window to [2, 5). -/
theorem C6_witness :
    (sub_window 2 3 (⟨0, 0, 0, 10, 10⟩ : RawIobuf)).2 = ⟨0, 0, 2, 5, 10⟩ :=
  (C6_sub_window_spec (⟨0, 0, 0, 10, 10⟩ : RawIobuf) 2 3 (by decide)).2.1
    (by decide)

/-- C7: for pos <= len(), split_at (nonatomic flavor) yields handles a over
[lo, lo+pos) and b over [lo+pos, hi), both on the same buffer with the
source's limits and owned bit; a.hi equals b.lo, a.is_extended_by(b) holds,
and extend_with(a, b) succeeds restoring a window of the original length. -/
theorem C7_split_at_spec (b : RawIobuf) (pos : Nat) (hInv : Inv b)
    (hpos : pos ≤ len b) :
    ∃ x y, split_at_nonatomic pos b = some (x, y) ∧
      x.buf = b.buf ∧ y.buf = b.buf ∧
      x.lo_min_and_owned_bit = b.lo_min_and_owned_bit ∧
      y.lo_min_and_owned_bit = b.lo_min_and_owned_bit ∧
      x.hi_max = b.hi_max ∧ y.hi_max = b.hi_max ∧
      x.lo = b.lo ∧ x.hi = b.lo + pos ∧ y.lo = b.lo + pos ∧ y.hi = b.hi ∧
      x.hi = y.lo ∧ is_extended_by x y = true ∧
      (extend_with y x).1 = RStat.ok ∧ len (extend_with y x).2 = len b := by
  have hl := len_eq b hInv
  obtain ⟨h1, h2, h3, h4⟩ := hInv
  unfold MAX_BUFFER_LEN at h4
  rw [hl] at hpos
  have hmod : (b.lo + pos) % U32 = b.lo + pos := by
    unfold U32
    omega
  have hcr : check_range pos 0 b = true := by
    unfold check_range
    rw [hl, decide_eq_true_eq]
    omega
  have hext : is_extended_by (unsafe_resize pos b) (unsafe_advance pos b) = true := by
    unfold is_extended_by unsafe_resize unsafe_advance len
    dsimp only
    simp only [beq_self_eq_true, Bool.true_and, decide_eq_true_eq]
    unfold U32
    omega
  refine ⟨unsafe_resize pos b, unsafe_advance pos b, ?_, rfl, rfl, rfl, rfl,
          rfl, rfl, rfl, hmod, hmod, rfl, rfl, hext, ?_, ?_⟩
  · unfold split_at_nonatomic
    rw [hcr]
    rfl
  · unfold extend_with
    rw [hext]
    rfl
  · have h15 : (extend_with (unsafe_advance pos b) (unsafe_resize pos b)).2 =
        { unsafe_resize pos b with
            hi := ((unsafe_resize pos b).hi + len (unsafe_advance pos b)) % U32 } := by
      unfold extend_with
      rw [hext]
      rfl
    rw [h15]
    unfold len unsafe_resize unsafe_advance
    dsimp only
    unfold U32
    omega

/-- Concrete application of the C7 theorem: splitting a fresh [0, 10) handle
at 4 succeeds. -/
theorem C7_witness :
    (split_at_nonatomic 4 (⟨0, 0, 0, 10, 10⟩ : RawIobuf)).isSome = true := by
  obtain ⟨x, y, hxy, _⟩ :=
    C7_split_at_spec (⟨0, 0, 0, 10, 10⟩ : RawIobuf) 4 (by decide) (by decide)
  rw [hxy]
  rfl

/-- C8: every checked operation that returns the failure sentinel leaves its
state untouched: cursor operations return the handle as received, memory
operations additionally return the memory as received (raw peek and the
typed peeks receive the handle and memory immutably, so for them there is
nothing that could change; the source's &self receiver and the model's
types both enforce it). -/
theorem C8_err_atomicity :
    (∀ n (b : RawIobuf), (advance n b).1 = RStat.err → (advance n b).2 = b) ∧
    (∀ n (b : RawIobuf), (extend n b).1 = RStat.err → (extend n b).2 = b) ∧
    (∀ n (b : RawIobuf), (resize n b).1 = RStat.err → (resize n b).2 = b) ∧
    (∀ pos n (b : RawIobuf), (sub_window pos n b).1 = RStat.err →
      (sub_window pos n b).2 = b) ∧
    (∀ pos n (b : RawIobuf), (sub pos n b).1 = RStat.err → (sub pos n b).2 = b) ∧
    (∀ limits window (b : RawIobuf),
      (set_limits_and_window limits window b).1 = RStat.err →
      (set_limits_and_window limits window b).2 = b) ∧
    (∀ (other b : RawIobuf), (extend_with other b).1 = RStat.err →
      (extend_with other b).2 = b) ∧
    (∀ pos src m (b : RawIobuf), (poke pos src m b).1 = PStat.rangeErr →
      (poke pos src m b).2 = m) ∧
    (∀ T pos t m (b : RawIobuf), (poke_be T pos t m b).1 = PStat.rangeErr →
      (poke_be T pos t m b).2 = m) ∧
    (∀ T pos t m (b : RawIobuf), (poke_le T pos t m b).1 = PStat.rangeErr →
      (poke_le T pos t m b).2 = m) ∧
    (∀ src m (b : RawIobuf), (fill src m b).1 = PStat.rangeErr →
      (fill src m b).2 = (m, b)) ∧
    (∀ n m (b : RawIobuf), (consume n m b).1 = PResult.rangeErr →
      (consume n m b).2 = b) ∧
    (∀ T t m (b : RawIobuf), (fill_be T t m b).1 = PStat.rangeErr →
      (fill_be T t m b).2 = (m, b)) ∧
    (∀ T t m (b : RawIobuf), (fill_le T t m b).1 = PStat.rangeErr →
      (fill_le T t m b).2 = (m, b)) ∧
    (∀ T m (b : RawIobuf), (consume_be T m b).1 = PResult.rangeErr →
      (consume_be T m b).2 = b) ∧
    (∀ T m (b : RawIobuf), (consume_le T m b).1 = PResult.rangeErr →
      (consume_le T m b).2 = b) := by
  refine ⟨?_, ?_, ?_, ?_, ?_, ?_, ?_, ?_, ?_, ?_, ?_, ?_, ?_, ?_, ?_, ?_⟩
  · intro n b
    unfold advance
    split
    next => intro h; exact absurd h (by simp)
    next => intro _; rfl
  · intro n b
    unfold extend
    split
    next => intro _; rfl
    next => intro h; exact absurd h (by simp)
  · intro n b
    unfold resize
    split
    next => intro _; rfl
    next => intro h; exact absurd h (by simp)
  · intro pos n b
    unfold sub_window
    split
    next => intro h; exact absurd h (by simp)
    next => intro _; rfl
  · intro pos n b
    unfold sub
    split
    next => intro h; exact absurd h (by simp)
    next => intro _; rfl
  · intro limits window b
    obtain ⟨a, d⟩ := limits
    obtain ⟨lo, hi⟩ := window
    rcases slw_cases a d lo hi b with ⟨_, he⟩ | ⟨_, he⟩
    · rw [he]; intro _; rfl
    · rw [he]; intro h; exact absurd h (by simp)
  · intro other b
    unfold extend_with
    split
    next => intro h; exact absurd h (by simp)
    next => intro _; rfl
  · intro pos src m b
    unfold poke
    split
    next => intro h; exact absurd h (by simp)
    next => intro _; rfl
  · intro T pos t m b
    unfold poke_be
    split
    next =>
      split
      next => intro h; exact absurd h (by simp)
      next => intro _; rfl
    next => intro _; rfl
  · intro T pos t m b
    unfold poke_le
    split
    next =>
      split
      next => intro h; exact absurd h (by simp)
      next => intro _; rfl
    next => intro _; rfl
  · intro src m b
    unfold fill
    split
    next => intro h; exact absurd h (by simp)
    next => intro _; rfl
  · intro n m b
    unfold consume
    split
    next => intro h; exact absurd h (by simp)
    next => intro _; rfl
  · intro T t m b
    unfold fill_be
    split
    next =>
      split
      next => intro h; exact absurd h (by simp)
      next => intro _; rfl
    next => intro _; rfl
  · intro T t m b
    unfold fill_le
    split
    next =>
      split
      next => intro h; exact absurd h (by simp)
      next => intro _; rfl
    next => intro _; rfl
  · intro T m b
    unfold consume_be
    split
    next =>
      split
      next => intro h; exact absurd h (by simp)
      next => intro _; rfl
    next => intro _; rfl
  · intro T m b
    unfold consume_le
    split
    next =>
      split
      next => intro h; exact absurd h (by simp)
      next => intro _; rfl
    next => intro _; rfl

/-- Concrete application of the C8 theorem: advance(11) on a 10-byte window
fails and the handle is returned unchanged. -/
theorem C8_witness :
    (advance 11 (⟨0, 0, 0, 10, 10⟩ : RawIobuf)).1 = RStat.err ∧
    (advance 11 (⟨0, 0, 0, 10, 10⟩ : RawIobuf)).2 = ⟨0, 0, 0, 10, 10⟩ :=
  ⟨by decide, C8_err_atomicity.1 11 (⟨0, 0, 0, 10, 10⟩ : RawIobuf) (by decide)⟩

/-- C9: the cursor-algebra operations keep the buf pointer and the owned bit
unchanged on every outcome (the invariant hypothesis is needed only where
set_lo_min is involved, so that the written lo_min stays below the owned
bit); the peeks and pokes receive the handle immutably (source: &self), so
the model's types already witness that no successful peek or poke moves a
cursor. -/
theorem C9_frame :
    (∀ n (b : RawIobuf), (advance n b).2.buf = b.buf ∧
      is_owned (advance n b).2 = is_owned b) ∧
    (∀ n (b : RawIobuf), (extend n b).2.buf = b.buf ∧
      is_owned (extend n b).2 = is_owned b) ∧
    (∀ n (b : RawIobuf), (resize n b).2.buf = b.buf ∧
      is_owned (resize n b).2 = is_owned b) ∧
    (∀ b : RawIobuf, (rewind b).buf = b.buf ∧ is_owned (rewind b) = is_owned b) ∧
    (∀ b : RawIobuf, (reset b).buf = b.buf ∧ is_owned (reset b) = is_owned b) ∧
    (∀ b : RawIobuf, (flip_lo b).buf = b.buf ∧ is_owned (flip_lo b) = is_owned b) ∧
    (∀ b : RawIobuf, (flip_hi b).buf = b.buf ∧ is_owned (flip_hi b) = is_owned b) ∧
    (∀ b : RawIobuf, Inv b → (narrow b).buf = b.buf ∧
      is_owned (narrow b) = is_owned b) ∧
    (∀ pos n (b : RawIobuf), (sub_window pos n b).2.buf = b.buf ∧
      is_owned (sub_window pos n b).2 = is_owned b) ∧
    (∀ pos n (b : RawIobuf), Inv b → (sub pos n b).2.buf = b.buf ∧
      is_owned (sub pos n b).2 = is_owned b) ∧
    (∀ m (b : RawIobuf), (compact m b).2.buf = b.buf ∧
      is_owned (compact m b).2 = is_owned b) ∧
    (∀ limits window (b : RawIobuf), Inv b →
      (set_limits_and_window limits window b).2.buf = b.buf ∧
      is_owned (set_limits_and_window limits window b).2 = is_owned b) := by
  refine ⟨?_, ?_, ?_, ?_, ?_, ?_, ?_, ?_, ?_, ?_, ?_, ?_⟩
  · intro n b
    exact ⟨by unfold advance; split <;> rfl, by unfold advance; split <;> rfl⟩
  · intro n b
    exact ⟨by unfold extend; split <;> rfl, by unfold extend; split <;> rfl⟩
  · intro n b
    exact ⟨by unfold resize; split <;> rfl, by unfold resize; split <;> rfl⟩
  · intro b
    exact ⟨rfl, rfl⟩
  · intro b
    exact ⟨rfl, rfl⟩
  · intro b
    exact ⟨rfl, rfl⟩
  · intro b
    exact ⟨rfl, rfl⟩
  · intro b hInv
    have hlo : b.lo < 2^31 := by
      obtain ⟨h1, h2, h3, h4⟩ := hInv
      unfold MAX_BUFFER_LEN at h4
      omega
    exact ⟨rfl, is_owned_set_lo_min b b.lo hlo⟩
  · intro pos n b
    exact ⟨by unfold sub_window; split <;> rfl,
           by unfold sub_window unsafe_sub_window unsafe_resize flip_hi; split <;> rfl⟩
  · intro pos n b hInv
    unfold sub check_range
    split
    next hc =>
      rw [decide_eq_true_eq] at hc
      unfold unsafe_sub
      rw [unsafe_sub_window_eq pos n b hInv hc]
      have hlo2 : b.lo + pos < 2^31 := by
        rw [len_eq b hInv] at hc
        obtain ⟨h1, h2, h3, h4⟩ := hInv
        unfold MAX_BUFFER_LEN at h4
        omega
      exact ⟨rfl,
        is_owned_set_lo_min
          (⟨b.buf, b.lo_min_and_owned_bit, b.lo + pos, b.lo + pos + n, b.hi_max⟩ :
            RawIobuf) (b.lo + pos) hlo2⟩
    next => exact ⟨rfl, rfl⟩
  · intro m b
    exact ⟨rfl, rfl⟩
  · intro limits window b hInv
    obtain ⟨a, d⟩ := limits
    obtain ⟨lo, hi⟩ := window
    rcases slw_cases a d lo hi b with ⟨_, he⟩ | ⟨hc, he⟩
    · rw [he]
      exact ⟨rfl, rfl⟩
    · rw [he]
      have ha : a < 2^31 := by
        obtain ⟨h1, h2, h3, h4⟩ := hInv
        unfold MAX_BUFFER_LEN at h4
        omega
      exact ⟨rfl, is_owned_set_lo_min b a ha⟩

/-- Concrete application of the C9 theorem: narrow on an owned handle keeps
the owned bit. -/
theorem C9_witness :
    is_owned (narrow (⟨0, OWNED_MASK, 3, 7, 10⟩ : RawIobuf)) =
      is_owned (⟨0, OWNED_MASK, 3, 7, 10⟩ : RawIobuf) :=
  (C9_frame.2.2.2.2.2.2.2.1 (⟨0, OWNED_MASK, 3, 7, 10⟩ : RawIobuf) (by decide)).2

/-- C10: after either drop on any handle, the owned bit is cleared (is_owned
is false and header() is None), and a second drop of that handle, in either
discipline, neither touches the refcount nor reaches the deallocate branch. -/
theorem C10_double_drop (b : RawIobuf) (rc : Nat) :
    (is_owned (drop_nonatomic b rc).1 = false ∧
     header (drop_nonatomic b rc).1 = none ∧
     (∀ rc2, drop_nonatomic (drop_nonatomic b rc).1 rc2 =
        ((drop_nonatomic b rc).1, rc2, false) ∧
      drop_atomic (drop_nonatomic b rc).1 rc2 =
        ((drop_nonatomic b rc).1, rc2, false))) ∧
    (is_owned (drop_atomic b rc).1 = false ∧
     header (drop_atomic b rc).1 = none ∧
     (∀ rc2, drop_nonatomic (drop_atomic b rc).1 rc2 =
        ((drop_atomic b rc).1, rc2, false) ∧
      drop_atomic (drop_atomic b rc).1 rc2 =
        ((drop_atomic b rc).1, rc2, false))) := by
  have hform_na : (drop_nonatomic b rc).1 = ⟨b.buf, 0, b.lo, b.hi, b.hi_max⟩ := by
    unfold drop_nonatomic
    split <;> rfl
  have hform_at : (drop_atomic b rc).1 = ⟨b.buf, 0, b.lo, b.hi, b.hi_max⟩ := by
    unfold drop_atomic
    split <;> rfl
  have h0 : is_owned (⟨b.buf, 0, b.lo, b.hi, b.hi_max⟩ : RawIobuf) = false := by
    unfold is_owned
    dsimp only
    decide
  have hh : header (⟨b.buf, 0, b.lo, b.hi, b.hi_max⟩ : RawIobuf) = none := by
    unfold header
    rw [h0]
    rfl
  have hsec_na : ∀ rc2,
      drop_nonatomic (⟨b.buf, 0, b.lo, b.hi, b.hi_max⟩ : RawIobuf) rc2 =
        ((⟨b.buf, 0, b.lo, b.hi, b.hi_max⟩ : RawIobuf), rc2, false) := by
    intro rc2
    unfold drop_nonatomic
    rw [h0]
    rfl
  have hsec_at : ∀ rc2,
      drop_atomic (⟨b.buf, 0, b.lo, b.hi, b.hi_max⟩ : RawIobuf) rc2 =
        ((⟨b.buf, 0, b.lo, b.hi, b.hi_max⟩ : RawIobuf), rc2, false) := by
    intro rc2
    unfold drop_atomic
    rw [h0]
    rfl
  rw [hform_na, hform_at]
  exact ⟨⟨h0, hh, fun rc2 => ⟨hsec_na rc2, hsec_at rc2⟩⟩,
         ⟨h0, hh, fun rc2 => ⟨hsec_na rc2, hsec_at rc2⟩⟩⟩

end Iobuf
